import Mathlib

/-!
A shallow embedding of `src/rom_filesystem.rs` (fuse-softpatch), the virtual
filesystem engine serving patched ROM images.

Modelling conventions:
* Rust `u64`/`u32` values are `Nat`; arithmetic that can overflow (the handle
  counter `next_handle += 1`, the `as i64` cast) is taken modulo `2 ^ 64`
  explicitly.
* `SystemTime` is a signed number of nanoseconds since the UNIX epoch (`Int`);
  `duration_since(UNIX_EPOCH)` succeeds exactly when the time is not before
  the epoch.
* FUSE hands the engine absolute paths and the code immediately runs
  `path.strip_prefix("/").unwrap()`; operations here take the stripped path,
  so the root path `/` is the empty string `""`.
* `HashMap` (the ROM registry `target_roms` and the handle table) is an
  association list with the usual lookup/insert/remove; `HashMap` keys are
  unique, which the theorems take as a hypothesis where it matters.
* `libc::geteuid()` / `libc::getegid()` are environment inputs, modelled as
  fields `uid` / `gid` of the filesystem state.
* Errors are the `libc` error numbers the code returns (`ENOENT`, `ENOSYS`),
  as `Int` constants with their Linux values.
-/

/-- Linux `libc::ENOENT`. -/
def ENOENT : Int := 2

/-- Linux `libc::ENOSYS`. -/
def ENOSYS : Int := 38

/-- Linux `libc::EIO`, the error number of the spec's IOFailure. -/
def IOFailure : Int := 5

/-- One more than the largest `u64` value. -/
def U64 : Nat := 2 ^ 64

/-- Rust `time::Timespec`: seconds (`i64`) and nanoseconds (`i32`). -/
structure Timespec where
  sec : Int
  nsec : Int
deriving DecidableEq, Repr

/-- Constant `EPOCH` from the source: `Timespec { sec: 0, nsec: 0 }`. -/
def EPOCH : Timespec := { sec := 0, nsec := 0 }

/-- Constant `TTL` from the source: `Timespec { sec: 1, nsec: 0 }`. -/
def TTL : Timespec := { sec := 1, nsec := 0 }

/-- `std::time::SystemTime`, as signed nanoseconds since the UNIX epoch. -/
abbrev SystemTime := Int

/-- Interpretation of a `u64` quantity cast `as i64` (two's complement). -/
def i64_of_u64 (n : Nat) : Int :=
  if n % U64 < 2 ^ 63 then ((n % U64 : Nat) : Int) else ((n % U64 : Nat) : Int) - (U64 : Int)

/-- Embeds `fn timespec_from(st: &SystemTime) -> Timespec`: on success of
`duration_since(UNIX_EPOCH)` it returns (`as_secs() as i64`,
`subsec_nanos() as i32`), otherwise `Timespec::new(0, 0)`. -/
def timespec_from (st : SystemTime) : Timespec :=
  if 0 ≤ st then
    { sec := i64_of_u64 (st.toNat / 1000000000), nsec := ((st.toNat % 1000000000 : Nat) : Int) }
  else
    { sec := 0, nsec := 0 }

/-- `fuse_mt::FileType`, restricted to the two variants the code produces. -/
inductive FileType where
  | Directory
  | RegularFile
deriving DecidableEq, Repr

/-- `fuse_mt::FileAttr`. -/
structure FileAttr where
  size : Nat
  blocks : Nat
  atime : Timespec
  mtime : Timespec
  ctime : Timespec
  crtime : Timespec
  kind : FileType
  perm : Nat
  nlink : Nat
  uid : Nat
  gid : Nat
  rdev : Nat
  flags : Nat
deriving DecidableEq, Repr

/-- `fuse_mt::DirectoryEntry`. -/
structure DirectoryEntry where
  name : String
  kind : FileType
deriving DecidableEq, Repr

/-- Modelled from the spec: `crate::bps::BpsHeader` is not under `src/`; the
spec's PatchHeader is `{target_size: unsigned 64-bit, create_time,
modify_time, access_time: timestamps}`, matching the fields
`rom_filesystem.rs` reads from it. -/
structure BpsHeader where
  target_size : Nat
  create_time : SystemTime
  modify_time : SystemTime
  access_time : SystemTime
deriving DecidableEq, Repr

/-- `enum Handle`: a directory handle, or a file handle with an optional
cache of materialized bytes. -/
inductive Handle where
  | Directory (attr : FileAttr)
  | File (attr : FileAttr) (data : Option (List Nat))
deriving DecidableEq, Repr

/-- Association-list lookup, the model of `HashMap::get`. -/
def alget {κ α : Type} [DecidableEq κ] : List (κ × α) → κ → Option α
  | [], _ => none
  | (k, v) :: rest, q => if k = q then some v else alget rest q

/-- Association-list removal, the model of `HashMap::remove`. -/
def alremove {κ α : Type} [DecidableEq κ] : List (κ × α) → κ → List (κ × α)
  | [], _ => []
  | (k, v) :: rest, q => if k = q then alremove rest q else (k, v) :: alremove rest q

/-- Association-list insertion, the model of `HashMap::insert` (replaces any
existing binding of the key). -/
def alinsert {κ α : Type} [DecidableEq κ] (t : List (κ × α)) (k : κ) (v : α) : List (κ × α) :=
  (k, v) :: alremove t k

/-- `struct RomFilesystem`: the registry (`rom_manager.target_roms`, modelled
from the spec since `crate::rom_manager` is not under `src/`: a mapping from
virtual filename to patch header), the handle table, and the monotonically
issued next handle identifier (a `u64`, initialised to 1 by `new`). `uid` and
`gid` model the process's effective user and group ids. -/
structure RomFilesystem where
  uid : Nat
  gid : Nat
  rom_manager : List (String × BpsHeader)
  handles : List (Nat × Handle)
  next_handle : Nat
deriving DecidableEq, Repr

namespace RomFilesystem

/-- `RomFilesystem::new`: empty handle table, `next_handle = 1`. -/
def new (uid gid : Nat) (rom_manager : List (String × BpsHeader)) : RomFilesystem :=
  { uid := uid, gid := gid, rom_manager := rom_manager, handles := [], next_handle := 1 }

/-- `RomFilesystem::get_root_attr`. -/
def get_root_attr (fs : RomFilesystem) : FileAttr :=
  { size := 0
    blocks := 0
    atime := EPOCH
    mtime := EPOCH
    ctime := EPOCH
    crtime := EPOCH
    kind := FileType.Directory
    perm := 0o444
    nlink := 1
    uid := fs.uid
    gid := fs.gid
    rdev := 0
    flags := 0 }

/-- `RomFilesystem::get_file_attr`. -/
def get_file_attr (fs : RomFilesystem) (header : BpsHeader) : FileAttr :=
  { size := header.target_size
    blocks := 0
    atime := timespec_from header.access_time
    mtime := timespec_from header.modify_time
    ctime := timespec_from header.modify_time
    crtime := timespec_from header.create_time
    kind := FileType.RegularFile
    perm := 0o444
    nlink := 1
    uid := fs.uid
    gid := fs.gid
    rdev := 0
    flags := 0 }

/-- `RomFilesystem::opendir` (path already stripped of the leading `/`, so
the root directory is `""`). Returns the FUSE `(fh, flags)` pair and the
updated state. -/
def opendir (fs : RomFilesystem) (path : String) : Except Int (Nat × Nat) × RomFilesystem :=
  if path = "" then
    let handle := fs.next_handle
    (Except.ok (handle, 0),
      { fs with
        handles := alinsert fs.handles handle (Handle.Directory fs.get_root_attr)
        next_handle := (fs.next_handle + 1) % U64 })
  else
    (Except.error ENOENT, fs)

/-- `RomFilesystem::readdir`. Reads the handle table and the registry;
mutates nothing. -/
def readdir (fs : RomFilesystem) (fh : Nat) : Except Int (List DirectoryEntry) :=
  match alget fs.handles fh with
  | some (Handle.Directory _) =>
    Except.ok
      ({ name := ".", kind := FileType.Directory } ::
        { name := "..", kind := FileType.Directory } ::
        fs.rom_manager.map (fun e => { name := e.1, kind := FileType.RegularFile }))
  | _ => Except.error ENOENT

/-- `RomFilesystem::releasedir`: removes the handle only when it is present
and a `Directory`. -/
def releasedir (fs : RomFilesystem) (fh : Nat) : Except Int Unit × RomFilesystem :=
  match alget fs.handles fh with
  | some (Handle.Directory _) => (Except.ok (), { fs with handles := alremove fs.handles fh })
  | _ => (Except.error ENOENT, fs)

/-- `RomFilesystem::access`: unconditionally `Ok(())`. -/
def access (fs : RomFilesystem) (path : String) (mask : Nat) : Except Int Unit :=
  Except.ok ()

/-- `RomFilesystem::getattr`: by handle when one is supplied, else by path.
Reads only; mutates nothing. -/
def getattr (fs : RomFilesystem) (path : String) (fh : Option Nat) :
    Except Int (Timespec × FileAttr) :=
  match fh with
  | some h =>
    match alget fs.handles h with
    | some (Handle.Directory attr) => Except.ok (TTL, attr)
    | some (Handle.File attr _) => Except.ok (TTL, attr)
    | none => Except.error ENOENT
  | none =>
    if path = "" then
      Except.ok (TTL, fs.get_root_attr)
    else
      match alget fs.rom_manager path with
      | some rom => Except.ok (TTL, fs.get_file_attr rom)
      | none => Except.error ENOENT

/-- `RomFilesystem::open`: registry lookup, then a fresh `File` handle with
an empty cache (`data: None`). -/
def «open» (fs : RomFilesystem) (path : String) : Except Int (Nat × Nat) × RomFilesystem :=
  match alget fs.rom_manager path with
  | some rom =>
    let handle := fs.next_handle
    (Except.ok (handle, 0),
      { fs with
        handles := alinsert fs.handles handle (Handle.File (fs.get_file_attr rom) none)
        next_handle := (fs.next_handle + 1) % U64 })
  | none => (Except.error ENOENT, fs)

/-- `RomFilesystem::read`: the source is an unimplemented stub that ignores
every argument, touches no state, and replies `Err(libc::ENOSYS)` (the body
is a `TODO: Deferred ROM patching on read` comment). -/
def read (fs : RomFilesystem) (fh : Nat) (offset : Nat) (size : Nat) : Except Int (List Nat) :=
  Except.error ENOSYS

/-- `RomFilesystem::release`: removes the handle only when it is present and
a `File`. -/
def release (fs : RomFilesystem) (fh : Nat) : Except Int Unit × RomFilesystem :=
  match alget fs.handles fh with
  | some (Handle.File _ _) => (Except.ok (), { fs with handles := alremove fs.handles fh })
  | _ => (Except.error ENOENT, fs)

end RomFilesystem

/-- A handle-allocating protocol call of one session: `opendir` or `open`. -/
inductive FsOp where
  | odir (path : String)
  | ofile (path : String)
deriving DecidableEq, Repr

/-- Run one allocating call. -/
def runOp (fs : RomFilesystem) (o : FsOp) : Except Int (Nat × Nat) × RomFilesystem :=
  match o with
  | FsOp.odir p => fs.opendir p
  | FsOp.ofile p => fs.«open» p

/-- Run a session: a sequence of `opendir`/`open` calls, collecting every
result in order together with the final state. -/
def runOps (fs : RomFilesystem) : List FsOp → List (Except Int (Nat × Nat)) × RomFilesystem
  | [] => ([], fs)
  | o :: rest =>
    let r := runOp fs o
    let rs := runOps r.2 rest
    (r.1 :: rs.1, rs.2)

/-- The handle identifiers returned by the successful calls, in order. -/
def okHandles (rs : List (Except Int (Nat × Nat))) : List Nat :=
  rs.filterMap (fun r => match r with | Except.ok (h, _) => some h | Except.error _ => none)

/-! Concrete fixtures for witnesses. -/

/-- A sample patch header with post-epoch timestamps. -/
def hdrA : BpsHeader := { target_size := 10, create_time := 5, modify_time := 7, access_time := 9 }

/-- A sample patch header whose timestamps all lie before the UNIX epoch. -/
def hdrNeg : BpsHeader := { target_size := 7, create_time := -1, modify_time := -2, access_time := -3 }

/-- A one-entry registry. -/
def regA : List (String × BpsHeader) := [("a.rom", hdrA)]

/-- A freshly constructed filesystem over `regA`. -/
def fsA : RomFilesystem := RomFilesystem.new 1000 100 regA

/-! Association-list facts used throughout. -/

theorem alget_alinsert_self {κ α : Type} [DecidableEq κ] (t : List (κ × α)) (k : κ) (v : α) :
    alget (alinsert t k v) k = some v := by
  simp [alinsert, alget]

theorem alget_alremove_self {κ α : Type} [DecidableEq κ] (t : List (κ × α)) (k : κ) :
    alget (alremove t k) k = none := by
  induction t with
  | nil => rfl
  | cons e rest ih =>
    obtain ⟨q, v⟩ := e
    by_cases h : q = k
    · simp [alremove, h, ih]
    · simp [alremove, h, alget, ih]

theorem alget_alremove_ne {κ α : Type} [DecidableEq κ] (t : List (κ × α)) {k q : κ}
    (h : k ≠ q) : alget (alremove t k) q = alget t q := by
  induction t with
  | nil => rfl
  | cons e rest ih =>
    obtain ⟨k', v⟩ := e
    by_cases h2 : k' = k
    · subst h2
      simp [alremove, alget, h, ih]
    · simp [alremove, h2, alget, ih]

theorem alget_alinsert_ne {κ α : Type} [DecidableEq κ] (t : List (κ × α)) (v : α) {k q : κ}
    (h : k ≠ q) : alget (alinsert t k v) q = alget t q := by
  simp [alinsert, alget, h, alget_alremove_ne]


/-- C1: the spec requires `read(handle, offset, length)` to materialize into
the handle's empty cache and return the clamped `[offset, offset+length)`
slice; in the code `read` is an unimplemented stub (its body is the comment
`TODO: Deferred ROM patching on read`): for every filesystem state, handle,
offset and length it fails with `ENOSYS` and never materializes anything. -/
theorem read_is_unimplemented_stub (fs : RomFilesystem) (fh offset : Nat) (size : Nat) :
    fs.read fh offset size = Except.error ENOSYS := rfl

/-- C6: the spec requires a failed materialization to fail the read with
IOFailure (`EIO`) while leaving the cache empty; the code's `read` never
attempts materialization at all: it fails with `ENOSYS`, which is not the
IOFailure error number, and takes no state, so no cache is ever touched. -/
theorem read_stub_fails_ENOSYS_not_IOFailure (fs : RomFilesystem) (fh offset : Nat)
    (size : Nat) :
    fs.read fh offset size = Except.error ENOSYS ∧ ENOSYS ≠ IOFailure ∧ ENOSYS ≠ ENOENT :=
  ⟨rfl, by decide, by decide⟩

/-- C10: a header timestamp strictly before the UNIX epoch converts to the
zero timespec (`sec = 0`, `nsec = 0`), and `get_file_attr` therefore reports
the zero timespec in each attribute field built from such a timestamp,
rather than failing or producing a negative time. -/
theorem timespec_from_before_epoch_zero (fs : RomFilesystem) (hdr : BpsHeader)
    (st : SystemTime) (hst : st < 0) (hacc : hdr.access_time < 0)
    (hmod : hdr.modify_time < 0) (hcre : hdr.create_time < 0) :
    timespec_from st = { sec := 0, nsec := 0 } ∧
    (fs.get_file_attr hdr).atime = { sec := 0, nsec := 0 } ∧
    (fs.get_file_attr hdr).mtime = { sec := 0, nsec := 0 } ∧
    (fs.get_file_attr hdr).ctime = { sec := 0, nsec := 0 } ∧
    (fs.get_file_attr hdr).crtime = { sec := 0, nsec := 0 } := by
  have key : ∀ t : SystemTime, t < 0 → timespec_from t = { sec := 0, nsec := 0 } := by
    intro t ht
    unfold timespec_from
    rw [if_neg (not_le.mpr ht)]
  exact ⟨key st hst, by simp [RomFilesystem.get_file_attr, key _ hacc],
    by simp [RomFilesystem.get_file_attr, key _ hmod],
    by simp [RomFilesystem.get_file_attr, key _ hmod],
    by simp [RomFilesystem.get_file_attr, key _ hcre]⟩

/-- Witness for C10 at the concrete pre-epoch header `hdrNeg`. -/
theorem timespec_from_before_epoch_zero_witness :
    timespec_from (-5) = { sec := 0, nsec := 0 } ∧
    (fsA.get_file_attr hdrNeg).atime = { sec := 0, nsec := 0 } ∧
    (fsA.get_file_attr hdrNeg).mtime = { sec := 0, nsec := 0 } ∧
    (fsA.get_file_attr hdrNeg).ctime = { sec := 0, nsec := 0 } ∧
    (fsA.get_file_attr hdrNeg).crtime = { sec := 0, nsec := 0 } :=
  timespec_from_before_epoch_zero fsA hdrNeg (-5) (by decide) (by decide) (by decide) (by decide)

/-- C4: `opendir` succeeds exactly for the root path (the empty string, once
the mandatory leading `/` of the FUSE path is stripped), allocating a fresh
Directory handle whose synthesized attributes have zero size, read-only
permission `0o444`, and all four timestamps equal to the zero timespec; for
every other path it fails `ENOENT` and leaves the state unchanged. -/
theorem opendir_root_only (fs : RomFilesystem) (path : String) :
    (path = "" →
      fs.opendir path = (Except.ok (fs.next_handle, 0),
        { fs with
          handles := alinsert fs.handles fs.next_handle (Handle.Directory fs.get_root_attr)
          next_handle := (fs.next_handle + 1) % U64 }) ∧
      fs.get_root_attr.size = 0 ∧
      fs.get_root_attr.perm = 0o444 ∧
      fs.get_root_attr.kind = FileType.Directory ∧
      fs.get_root_attr.atime = { sec := 0, nsec := 0 } ∧
      fs.get_root_attr.mtime = { sec := 0, nsec := 0 } ∧
      fs.get_root_attr.ctime = { sec := 0, nsec := 0 } ∧
      fs.get_root_attr.crtime = { sec := 0, nsec := 0 }) ∧
    (path ≠ "" → fs.opendir path = (Except.error ENOENT, fs)) := by
  constructor
  · intro h
    subst h
    exact ⟨by simp [RomFilesystem.opendir], rfl, rfl, rfl, rfl, rfl, rfl, rfl⟩
  · intro h
    simp [RomFilesystem.opendir, h]

/-- Witness for C4: the root succeeds and a non-root path fails on `fsA`. -/
theorem opendir_root_only_witness :
    (fsA.opendir "").1 = Except.ok (1, 0) ∧ (fsA.opendir "x").1 = Except.error ENOENT := by
  have h1 := ((opendir_root_only fsA "").1 rfl).1
  have h2 := (opendir_root_only fsA "x").2 (by decide)
  rw [h1, h2]
  exact ⟨rfl, rfl⟩

/-- C2: for every path present in the registry, `open` succeeds with the
fresh handle identifier `next_handle`, the new table entry is a `File`
handle with an empty cache, and `getattr` through that handle reports
attributes whose size equals the registry header's `target_size`. -/
theorem open_then_getattr_size (fs : RomFilesystem) (path : String) (hdr : BpsHeader)
    (hreg : alget fs.rom_manager path = some hdr) :
    (fs.«open» path).1 = Except.ok (fs.next_handle, 0) ∧
    alget (fs.«open» path).2.handles fs.next_handle =
      some (Handle.File (fs.get_file_attr hdr) none) ∧
    (fs.«open» path).2.getattr path (some fs.next_handle) =
      Except.ok (TTL, fs.get_file_attr hdr) ∧
    (fs.get_file_attr hdr).size = hdr.target_size := by
  have h1 : (fs.«open» path).1 = Except.ok (fs.next_handle, 0) := by
    simp [RomFilesystem.«open», hreg]
  have h2 : alget (fs.«open» path).2.handles fs.next_handle =
      some (Handle.File (fs.get_file_attr hdr) none) := by
    simp [RomFilesystem.«open», hreg, alget_alinsert_self]
  refine ⟨h1, h2, ?_, rfl⟩
  simp [RomFilesystem.getattr, h2]

/-- Witness for C2 at the concrete registry entry `("a.rom", hdrA)`. -/
theorem open_then_getattr_size_witness :
    (fsA.«open» "a.rom").1 = Except.ok (1, 0) ∧
    (fsA.«open» "a.rom").2.getattr "a.rom" (some 1) = Except.ok (TTL, fsA.get_file_attr hdrA) ∧
    (fsA.get_file_attr hdrA).size = 10 := by
  have h := open_then_getattr_size fsA "a.rom" hdrA (by decide)
  exact ⟨h.1, h.2.2.1, h.2.2.2⟩

/-- C7: `getattr` with a supplied handle present in the table returns that
handle's stored attributes (either variant) with the fixed one-second
validity window `TTL`; with a supplied handle absent from the table it fails
`ENOENT`; with no handle it returns the synthesized root attributes for the
root path, or, for a path bound in the registry, attributes with
`size = target_size`, timestamps converted from the header, read-only
permission `0o444` and link count 1; for any other path it fails `ENOENT`. -/
theorem getattr_spec (fs : RomFilesystem) (path : String) (h : Nat) (hdr : BpsHeader) :
    (∀ attr, alget fs.handles h = some (Handle.Directory attr) →
      fs.getattr path (some h) = Except.ok (TTL, attr)) ∧
    (∀ attr d, alget fs.handles h = some (Handle.File attr d) →
      fs.getattr path (some h) = Except.ok (TTL, attr)) ∧
    (alget fs.handles h = none → fs.getattr path (some h) = Except.error ENOENT) ∧
    (path = "" → fs.getattr path none = Except.ok (TTL, fs.get_root_attr)) ∧
    (path ≠ "" → alget fs.rom_manager path = some hdr →
      fs.getattr path none = Except.ok (TTL, fs.get_file_attr hdr) ∧
      (fs.get_file_attr hdr).size = hdr.target_size ∧
      (fs.get_file_attr hdr).atime = timespec_from hdr.access_time ∧
      (fs.get_file_attr hdr).mtime = timespec_from hdr.modify_time ∧
      (fs.get_file_attr hdr).ctime = timespec_from hdr.modify_time ∧
      (fs.get_file_attr hdr).crtime = timespec_from hdr.create_time ∧
      (fs.get_file_attr hdr).perm = 0o444 ∧
      (fs.get_file_attr hdr).nlink = 1) ∧
    (path ≠ "" → alget fs.rom_manager path = none →
      fs.getattr path none = Except.error ENOENT) ∧
    TTL = { sec := 1, nsec := 0 } := by
  refine ⟨?_, ?_, ?_, ?_, ?_, ?_, rfl⟩
  · intro attr hget
    simp [RomFilesystem.getattr, hget]
  · intro attr d hget
    simp [RomFilesystem.getattr, hget]
  · intro hget
    simp [RomFilesystem.getattr, hget]
  · intro hp
    simp [RomFilesystem.getattr, hp]
  · intro hp hget
    exact ⟨by simp [RomFilesystem.getattr, hp, hget], rfl, rfl, rfl, rfl, rfl, rfl, rfl⟩
  · intro hp hget
    simp [RomFilesystem.getattr, hp, hget]

/-- Witness for C7: the path-based file branch and the absent-handle branch
evaluated on `fsA`. -/
theorem getattr_spec_witness :
    fsA.getattr "a.rom" none = Except.ok (TTL, fsA.get_file_attr hdrA) ∧
    fsA.getattr "a.rom" (some 5) = Except.error ENOENT := by
  have h := getattr_spec fsA "a.rom" 5 hdrA
  exact ⟨(h.2.2.2.2.1 (by decide) (by decide)).1, h.2.2.1 (by decide)⟩

/-- C3: `readdir` on a handle stored as a Directory succeeds and returns
exactly `.` and `..` typed as directories followed by one regular-file entry
per registry key; the returned names are `.`, `..`, then the registry keys,
and they contain no duplicates (registry keys are unique `HashMap` keys and
ordinary filenames, hence never `.` or `..`); on an identifier absent from
the table or bound to a File handle, `readdir` fails `ENOENT`. -/
theorem readdir_spec (fs : RomFilesystem) (fh : Nat) :
    (∀ attr, alget fs.handles fh = some (Handle.Directory attr) →
      fs.readdir fh = Except.ok
        ({ name := ".", kind := FileType.Directory } ::
          { name := "..", kind := FileType.Directory } ::
          fs.rom_manager.map (fun e => { name := e.1, kind := FileType.RegularFile })) ∧
      (({ name := ".", kind := FileType.Directory } ::
          { name := "..", kind := FileType.Directory } ::
          fs.rom_manager.map
            (fun e => ({ name := e.1, kind := FileType.RegularFile } : DirectoryEntry))).map
        DirectoryEntry.name = "." :: ".." :: fs.rom_manager.map Prod.fst) ∧
      ((fs.rom_manager.map Prod.fst).Nodup →
        "." ∉ fs.rom_manager.map Prod.fst →
        ".." ∉ fs.rom_manager.map Prod.fst →
        (("." : String) :: ".." :: fs.rom_manager.map Prod.fst).Nodup)) ∧
    (alget fs.handles fh = none → fs.readdir fh = Except.error ENOENT) ∧
    (∀ attr d, alget fs.handles fh = some (Handle.File attr d) →
      fs.readdir fh = Except.error ENOENT) := by
  refine ⟨?_, ?_, ?_⟩
  · intro attr hget
    refine ⟨by simp [RomFilesystem.readdir, hget], ?_, ?_⟩
    · simp [List.map_map]
    · intro h1 h2 h3
      refine List.nodup_cons.mpr ⟨?_, List.nodup_cons.mpr ⟨h3, h1⟩⟩
      rw [List.mem_cons]
      push_neg
      exact ⟨by decide, h2⟩
  · intro hget
    simp [RomFilesystem.readdir, hget]
  · intro attr d hget
    simp [RomFilesystem.readdir, hget]

/-- Witness for C3: a root directory handle on `fsA` lists `.`, `..`, and
the single registry key, with no duplicate names. -/
theorem readdir_spec_witness :
    (fsA.opendir "").2.readdir 1 =
      Except.ok
        ({ name := ".", kind := FileType.Directory } ::
          { name := "..", kind := FileType.Directory } ::
          [{ name := "a.rom", kind := FileType.RegularFile }]) ∧
    (("." : String) :: ".." :: ["a.rom"]).Nodup := by
  have h := readdir_spec (fsA.opendir "").2 1
  have hget : alget (fsA.opendir "").2.handles 1 =
      some (Handle.Directory fsA.get_root_attr) := by decide
  obtain ⟨hok, hnames, hnodup⟩ := h.1 fsA.get_root_attr hget
  constructor
  · rw [hok]
    rfl
  · exact hnodup (by decide) (by decide) (by decide)

/-- A successful `release` leaves the table with the handle removed. -/
theorem release_ok_handles {fs fs' : RomFilesystem} {fh : Nat}
    (h : fs.release fh = (Except.ok (), fs')) :
    fs'.handles = alremove fs.handles fh := by
  unfold RomFilesystem.release at h
  split at h
  · injection h with h1 h2
    rw [← h2]
  · injection h with h1 h2
    exact absurd h1 (by simp)

/-- A successful `releasedir` leaves the table with the handle removed. -/
theorem releasedir_ok_handles {fs fs' : RomFilesystem} {fh : Nat}
    (h : fs.releasedir fh = (Except.ok (), fs')) :
    fs'.handles = alremove fs.handles fh := by
  unfold RomFilesystem.releasedir at h
  split at h
  · injection h with h1 h2
    rw [← h2]
  · injection h with h1 h2
    exact absurd h1 (by simp)

/-- C5 counterexample: on the concrete session that opens `a.rom` (handle 1)
and successfully releases it, the subsequent `read` on handle 1 fails with
`ENOSYS`, not with `ENOENT` as the claim demands for every operation. -/
theorem released_handle_read_not_ENOENT :
    (fsA.«open» "a.rom").1 = Except.ok (1, 0) ∧
    ((fsA.«open» "a.rom").2.release 1).1 = Except.ok () ∧
    ((fsA.«open» "a.rom").2.release 1).2.read 1 0 10 = Except.error ENOSYS ∧
    ENOSYS ≠ ENOENT :=
  ⟨rfl, rfl, rfl, by decide⟩

/-- C5 (amended): after a successful `release` or `releasedir` of a handle,
the identifier is gone from the table and every subsequent `getattr`,
`readdir`, `release` and `releasedir` with it fails `ENOENT`; a subsequent
`read` fails `ENOSYS` (not `ENOENT`), because `read` is an unimplemented
stub that reports `ENOSYS` for every handle. -/
theorem release_invalidates_handle (fs fs' : RomFilesystem) (fh : Nat) (path : String)
    (offset : Nat) (size : Nat)
    (hrel : fs.release fh = (Except.ok (), fs') ∨ fs.releasedir fh = (Except.ok (), fs')) :
    alget fs'.handles fh = none ∧
    fs'.getattr path (some fh) = Except.error ENOENT ∧
    fs'.readdir fh = Except.error ENOENT ∧
    (fs'.release fh).1 = Except.error ENOENT ∧
    (fs'.releasedir fh).1 = Except.error ENOENT ∧
    fs'.read fh offset size = Except.error ENOSYS := by
  have hnone : alget fs'.handles fh = none := by
    rcases hrel with h | h
    · rw [release_ok_handles h]
      exact alget_alremove_self _ _
    · rw [releasedir_ok_handles h]
      exact alget_alremove_self _ _
  refine ⟨hnone, ?_, ?_, ?_, ?_, rfl⟩
  · simp [RomFilesystem.getattr, hnone]
  · simp [RomFilesystem.readdir, hnone]
  · simp [RomFilesystem.release, hnone]
  · simp [RomFilesystem.releasedir, hnone]

/-- Witness for the amended C5 on the concrete open-then-release session. -/
theorem release_invalidates_handle_witness :
    alget ((fsA.«open» "a.rom").2.release 1).2.handles 1 = none ∧
    ((fsA.«open» "a.rom").2.release 1).2.getattr "a.rom" (some 1) = Except.error ENOENT ∧
    ((fsA.«open» "a.rom").2.release 1).2.readdir 1 = Except.error ENOENT ∧
    (((fsA.«open» "a.rom").2.release 1).2.release 1).1 = Except.error ENOENT ∧
    (((fsA.«open» "a.rom").2.release 1).2.releasedir 1).1 = Except.error ENOENT ∧
    ((fsA.«open» "a.rom").2.release 1).2.read 1 0 10 = Except.error ENOSYS :=
  release_invalidates_handle (fsA.«open» "a.rom").2 ((fsA.«open» "a.rom").2.release 1).2 1
    "a.rom" 0 10 (Or.inl rfl)

/-- C9: the registry is never mutated by any engine operation (`readdir`,
`getattr`, `read` and `access` are state-free in code and model alike — they
only read under the locks — so the four state-returning operations are the
ones listed), and every operation that fails returns the state completely
unchanged: no table entry is removed or modified and the counter does not
advance. -/
theorem failures_preserve_state (fs : RomFilesystem) (p : String) (fh : Nat) (e : Int) :
    (fs.opendir p).2.rom_manager = fs.rom_manager ∧
    (fs.«open» p).2.rom_manager = fs.rom_manager ∧
    (fs.release fh).2.rom_manager = fs.rom_manager ∧
    (fs.releasedir fh).2.rom_manager = fs.rom_manager ∧
    ((fs.opendir p).1 = Except.error e → (fs.opendir p).2 = fs) ∧
    ((fs.«open» p).1 = Except.error e → (fs.«open» p).2 = fs) ∧
    ((fs.release fh).1 = Except.error e → (fs.release fh).2 = fs) ∧
    ((fs.releasedir fh).1 = Except.error e → (fs.releasedir fh).2 = fs) := by
  refine ⟨?_, ?_, ?_, ?_, ?_, ?_, ?_, ?_⟩
  · unfold RomFilesystem.opendir
    split <;> rfl
  · unfold RomFilesystem.«open»
    split <;> rfl
  · unfold RomFilesystem.release
    split <;> rfl
  · unfold RomFilesystem.releasedir
    split <;> rfl
  · intro h
    by_cases hp : p = ""
    · simp [RomFilesystem.opendir, hp] at h
    · simp [RomFilesystem.opendir, hp]
  · intro h
    rcases hr : alget fs.rom_manager p with _ | rom
    · simp [RomFilesystem.«open», hr]
    · simp [RomFilesystem.«open», hr] at h
  · intro h
    rcases hr : alget fs.handles fh with _ | hd
    · simp [RomFilesystem.release, hr]
    · cases hd with
      | Directory a => simp [RomFilesystem.release, hr]
      | File a d => simp [RomFilesystem.release, hr] at h
  · intro h
    rcases hr : alget fs.handles fh with _ | hd
    · simp [RomFilesystem.releasedir, hr]
    · cases hd with
      | Directory a => simp [RomFilesystem.releasedir, hr] at h
      | File a d => simp [RomFilesystem.releasedir, hr]

/-- Witness for C9: a failing `open` and a failing `release` on `fsA` leave
it untouched. -/
theorem failures_preserve_state_witness :
    (fsA.«open» "nope").2 = fsA ∧ (fsA.release 99).2 = fsA := by
  obtain ⟨-, -, -, -, -, h6, h7, -⟩ := failures_preserve_state fsA "nope" 99 ENOENT
  exact ⟨h6 rfl, h7 rfl⟩

/-- Each allocating call either succeeds with the current counter value and
advances the counter, or fails and leaves the state untouched. -/
theorem runOp_next (fs : RomFilesystem) (o : FsOp) :
    ((runOp fs o).1 = Except.ok (fs.next_handle, 0) ∧
      (runOp fs o).2.next_handle = (fs.next_handle + 1) % U64) ∨
    ((runOp fs o).2 = fs ∧ ∀ h f, (runOp fs o).1 ≠ Except.ok (h, f)) := by
  cases o with
  | odir p =>
    by_cases hp : p = ""
    · left
      constructor <;> simp [runOp, RomFilesystem.opendir, hp]
    · right
      constructor <;> simp [runOp, RomFilesystem.opendir, hp]
  | ofile p =>
    rcases hr : alget fs.rom_manager p with _ | rom
    · right
      constructor <;> simp [runOp, RomFilesystem.«open», hr]
    · left
      constructor <;> simp [runOp, RomFilesystem.«open», hr]

/-- Counter monotonicity over a session whose allocation budget stays below
the `u64` wraparound: every successful handle is at least the starting
counter, below the final counter, and the successful handles are strictly
increasing in order of allocation. -/
theorem runOps_bounds (ops : List FsOp) : ∀ fs : RomFilesystem,
    fs.next_handle + ops.length < U64 →
    fs.next_handle ≤ (runOps fs ops).2.next_handle ∧
    (runOps fs ops).2.next_handle ≤ fs.next_handle + ops.length ∧
    (∀ h ∈ okHandles (runOps fs ops).1,
      fs.next_handle ≤ h ∧ h < (runOps fs ops).2.next_handle) ∧
    List.Pairwise (· < ·) (okHandles (runOps fs ops).1) := by
  induction ops with
  | nil =>
    intro fs hb
    simp [runOps, okHandles]
  | cons o rest ih =>
    intro fs hb
    simp only [List.length_cons] at hb
    have hrun : runOps fs (o :: rest) =
        ((runOp fs o).1 :: (runOps (runOp fs o).2 rest).1, (runOps (runOp fs o).2 rest).2) := rfl
    rcases runOp_next fs o with ⟨hok, hnext⟩ | ⟨hsame, herr⟩
    · have hinc : (runOp fs o).2.next_handle = fs.next_handle + 1 := by
        rw [hnext]
        exact Nat.mod_eq_of_lt (by omega)
      obtain ⟨ih1, ih2, ih3, ih4⟩ := ih (runOp fs o).2 (by omega)
      rw [hrun]
      dsimp only
      have hoh : okHandles ((runOp fs o).1 :: (runOps (runOp fs o).2 rest).1) =
          fs.next_handle :: okHandles (runOps (runOp fs o).2 rest).1 := by
        rw [hok]
        rfl
      rw [hoh]
      refine ⟨by omega, by simp only [List.length_cons]; omega, ?_, ?_⟩
      · intro h hmem
        rcases List.mem_cons.mp hmem with rfl | hmem'
        · exact ⟨le_refl _, by omega⟩
        · obtain ⟨ha, hb2⟩ := ih3 h hmem'
          exact ⟨by omega, hb2⟩
      · refine List.Pairwise.cons ?_ ih4
        intro b hbmem
        obtain ⟨ha, -⟩ := ih3 b hbmem
        omega
    · obtain ⟨ih1, ih2, ih3, ih4⟩ := ih fs (by omega)
      rw [hrun, hsame]
      have hoh : okHandles ((runOp fs o).1 :: (runOps fs rest).1) =
          okHandles (runOps fs rest).1 := by
        rcases hc : (runOp fs o).1 with e | v
        · rfl
        · obtain ⟨h', f'⟩ := v
          exact absurd hc (herr h' f')
      rw [hoh]
      exact ⟨ih1, by simp only [List.length_cons]; omega, ih3, ih4⟩

/-- C8: within one session whose allocation budget stays below the `u64`
wraparound (the spec puts wraparound out of scope), the handle identifiers
returned by any sequence of successful `open`/`opendir` calls are strictly
increasing, hence pairwise distinct — even when the same path is opened
twice; and opening one registry path twice yields two distinct identifiers,
each bound in the table to its own `File` entry with its own empty cache. -/
theorem open_handles_pairwise_distinct (fs : RomFilesystem) (ops : List FsOp) (path : String)
    (hdr : BpsHeader)
    (hbound : fs.next_handle + ops.length < U64)
    (hb2 : fs.next_handle + 1 < U64)
    (hreg : alget fs.rom_manager path = some hdr) :
    List.Pairwise (· < ·) (okHandles (runOps fs ops).1) ∧
    (okHandles (runOps fs ops).1).Nodup ∧
    (fs.«open» path).2.next_handle ≠ fs.next_handle ∧
    alget ((fs.«open» path).2.«open» path).2.handles fs.next_handle =
      some (Handle.File (fs.get_file_attr hdr) none) ∧
    alget ((fs.«open» path).2.«open» path).2.handles (fs.«open» path).2.next_handle =
      some (Handle.File ((fs.«open» path).2.get_file_attr hdr) none) := by
  obtain ⟨-, -, -, hpw⟩ := runOps_bounds ops fs hbound
  have step : ∀ g : RomFilesystem, alget g.rom_manager path = some hdr →
      (g.«open» path).2 =
        { g with
          handles := alinsert g.handles g.next_handle
            (Handle.File (g.get_file_attr hdr) none)
          next_handle := (g.next_handle + 1) % U64 } := by
    intro g hg
    simp [RomFilesystem.«open», hg]
  have hfs1 := step fs hreg
  have hmod : (fs.next_handle + 1) % U64 = fs.next_handle + 1 := Nat.mod_eq_of_lt hb2
  have hne : (fs.«open» path).2.next_handle ≠ fs.next_handle := by
    rw [hfs1]
    simp [hmod]
  have hreg1 : alget (fs.«open» path).2.rom_manager path = some hdr := by
    rw [hfs1]
    exact hreg
  have hattr1 : (fs.«open» path).2.get_file_attr hdr = fs.get_file_attr hdr := by
    rw [hfs1]
    rfl
  have hfs2 := step (fs.«open» path).2 hreg1
  refine ⟨hpw, hpw.imp (fun hlt => Nat.ne_of_lt hlt), hne, ?_, ?_⟩
  · rw [hfs2]
    dsimp only
    rw [alget_alinsert_ne _ _ hne]
    rw [hfs1]
    dsimp only
    exact alget_alinsert_self _ _ _
  · rw [hfs2]
    dsimp only
    exact alget_alinsert_self _ _ _

/-- Witness for C8: the three-call session `open a.rom`, `opendir /`,
`open a.rom` on `fsA` returns pairwise distinct handles 1, 2, 3, and the
double open leaves two independent empty-cache `File` entries. -/
theorem open_handles_pairwise_distinct_witness :
    (okHandles (runOps fsA [FsOp.ofile "a.rom", FsOp.odir "", FsOp.ofile "a.rom"]).1).Nodup ∧
    alget ((fsA.«open» "a.rom").2.«open» "a.rom").2.handles 1 =
      some (Handle.File (fsA.get_file_attr hdrA) none) ∧
    alget ((fsA.«open» "a.rom").2.«open» "a.rom").2.handles 2 =
      some (Handle.File ((fsA.«open» "a.rom").2.get_file_attr hdrA) none) := by
  have h := open_handles_pairwise_distinct fsA
    [FsOp.ofile "a.rom", FsOp.odir "", FsOp.ofile "a.rom"] "a.rom" hdrA
    (by decide) (by decide) (by decide)
  exact ⟨h.2.1, h.2.2.2.1, h.2.2.2.2⟩
